import Mathlib

/-!
Verification of the FieldUploads upload pipeline (src/server.py).

The Python source is shallowly embedded: paths and other Python strings
are `List Char`, Python floats are modelled as exact rationals (`ℚ`,
plus explicit infinity and NaN markers where the code can receive them),
the local filesystem is a presence map `List Char → Bool`, and the
spreadsheet ledger is a list of rows of cells.  Operations that can
raise in Python return `Except`; library failures that the code guards
against (image decode or encode errors, file removal errors, object
storage errors) are injected through explicit environment flags, since
whether they occur is decided outside the program.
-/

namespace FieldUploads

/-! ### ASCII lowercasing (models Python str.lower on ASCII text) -/

/-- Models Python `str.lower` on a single ASCII character: uppercase
letters are shifted by 32, all other characters are unchanged.
(Non-ASCII lowercasing is outside the model.) -/
def lowerChar (c : Char) : Char :=
  if 'A' ≤ c ∧ c ≤ 'Z' then Char.ofNat (c.toNat + 32) else c

/-- Models Python `str.lower` over a whole string. -/
def lowerStr (l : List Char) : List Char := l.map lowerChar

theorem lowerChar_toNat_of_upper {c : Char} (h : 'A' ≤ c ∧ c ≤ 'Z') :
    (lowerChar c).toNat = c.toNat + 32 := by
  have h1 : 65 ≤ c.toNat := h.1
  have h2 : c.toNat ≤ 90 := h.2
  have hv : (c.toNat + 32).isValidChar := by
    unfold Nat.isValidChar
    omega
  rw [lowerChar, if_pos h, Char.ofNat, dif_pos hv]
  rfl

/-- Lowercasing never produces a dot: needed to commute `splitext`
with lowercasing. -/
theorem lowerChar_eq_dot_iff (c : Char) : lowerChar c = '.' ↔ c = '.' := by
  constructor
  · intro h
    by_cases hc : 'A' ≤ c ∧ c ≤ 'Z'
    · exfalso
      have ht := lowerChar_toNat_of_upper hc
      rw [h] at ht
      rw [show ('.' : Char).toNat = 46 from rfl] at ht
      have h1 : 65 ≤ c.toNat := hc.1
      omega
    · rwa [lowerChar, if_neg hc] at h
  · intro h
    subst h
    decide

/-- Lowercasing never produces a path separator. -/
theorem lowerChar_eq_sep_iff (c : Char) : lowerChar c = '/' ↔ c = '/' := by
  constructor
  · intro h
    by_cases hc : 'A' ≤ c ∧ c ≤ 'Z'
    · exfalso
      have ht := lowerChar_toNat_of_upper hc
      rw [h] at ht
      rw [show ('/' : Char).toNat = 47 from rfl] at ht
      have h1 : 65 ≤ c.toNat := hc.1
      omega
    · rwa [lowerChar, if_neg hc] at h
  · intro h
    subst h
    decide

theorem lowerChar_idem (c : Char) : lowerChar (lowerChar c) = lowerChar c := by
  by_cases hc : 'A' ≤ c ∧ c ≤ 'Z'
  · have ht := lowerChar_toNat_of_upper hc
    have h1 : 65 ≤ c.toNat := hc.1
    have hn : ¬ ('A' ≤ lowerChar c ∧ lowerChar c ≤ 'Z') := by
      intro hup
      have h90 : (lowerChar c).toNat ≤ 90 := hup.2
      omega
    nth_rewrite 1 [lowerChar]
    rw [if_neg hn]
  · have h0 : lowerChar c = c := by rw [lowerChar, if_neg hc]
    rw [h0]
    exact h0

theorem lowerStr_idem (l : List Char) : lowerStr (lowerStr l) = lowerStr l := by
  simp only [lowerStr, List.map_map]
  exact List.map_congr_left fun c _ => lowerChar_idem c

/-! ### os.path.splitext (CPython posixpath/genericpath semantics) -/

/-- Index of the last occurrence of `c` in `l`, or `none`
(models Python `str.rfind`, which returns `-1` when absent). -/
def rfindIdx (c : Char) : List Char → Option ℕ
  | [] => none
  | x :: xs =>
    match rfindIdx c xs with
    | some i => some (i + 1)
    | none => if x = c then some 0 else none

/-- Python `str.rfind` with its `-1` convention for a missing character. -/
def rfindInt (c : Char) (l : List Char) : ℤ :=
  match rfindIdx c l with
  | some i => (i : ℤ)
  | none => -1

/-- Models CPython `os.path.splitext` for POSIX paths: split at the last
dot that lies after the last separator, unless every character between
the separator and that dot is itself a dot (leading-dot filenames such
as `.bashrc` keep their dot in the root part). -/
def splitext (l : List Char) : List Char × List Char :=
  let sepIndex := rfindInt '/' l
  let dotIndex := rfindInt '.' l
  if sepIndex < dotIndex then
    if ((l.drop (sepIndex + 1).toNat).take (dotIndex - sepIndex - 1).toNat).any
        (fun c => c ≠ '.') then
      (l.take dotIndex.toNat, l.drop dotIndex.toNat)
    else (l, [])
  else (l, [])

theorem rfindIdx_map_lower (c : Char) (hc : ∀ x, lowerChar x = c ↔ x = c)
    (l : List Char) : rfindIdx c (lowerStr l) = rfindIdx c l := by
  induction l with
  | nil => rfl
  | cons x xs ih =>
    simp only [lowerStr, List.map_cons] at *
    rw [rfindIdx, rfindIdx, ih]
    cases rfindIdx c xs with
    | some i => rfl
    | none =>
      by_cases hx : x = c
      · subst hx
        have h1 : lowerChar x = x := (hc x).2 rfl
        simp [h1]
      · have h2 : ¬ lowerChar x = c := fun h => hx ((hc x).1 h)
        simp [hx, h2]

theorem rfindInt_map_lower (c : Char) (hc : ∀ x, lowerChar x = c ↔ x = c)
    (l : List Char) : rfindInt c (lowerStr l) = rfindInt c l := by
  rw [rfindInt, rfindInt, rfindIdx_map_lower c hc]

theorem splitext_append (l : List Char) :
    (splitext l).1 ++ (splitext l).2 = l := by
  rw [splitext]
  split
  · split
    · exact List.take_append_drop _ l
    · simp
  · simp

/-- `splitext` commutes with ASCII lowercasing, because lowercasing
fixes dots and separators and preserves positions. -/
theorem splitext_lower (l : List Char) :
    splitext (lowerStr l) = (lowerStr (splitext l).1, lowerStr (splitext l).2) := by
  have hdot := rfindInt_map_lower '.' lowerChar_eq_dot_iff l
  have hsep := rfindInt_map_lower '/' lowerChar_eq_sep_iff l
  have hany : ∀ (n m : ℕ),
      (((lowerStr l).drop n).take m).any (fun c => c ≠ '.') =
      ((l.drop n).take m).any (fun c => c ≠ '.') := by
    intro n m
    rw [lowerStr, ← List.map_drop, ← List.map_take, List.any_map]
    congr 1
    funext c
    simp only [Function.comp_apply, ne_eq, decide_eq_decide]
    exact not_congr (lowerChar_eq_dot_iff c)
  rw [splitext, splitext, hdot, hsep, hany]
  by_cases h1 : rfindInt '/' l < rfindInt '.' l
  · simp only [if_pos h1]
    by_cases h2 : ((l.drop (rfindInt '/' l + 1).toNat).take
        (rfindInt '.' l - rfindInt '/' l - 1).toNat).any (fun c => c ≠ '.') = true
    · simp only [if_pos h2]
      simp [lowerStr, List.map_take, List.map_drop]
    · simp only [if_neg h2]
      simp [lowerStr]
  · simp only [if_neg h1]
    simp [lowerStr]

/-! ### ImageNormalizer: ensure_jpeg

The local filesystem is a presence map.  Decode and encode failures of
the image library, and the failure of `os.remove` that the source
swallows with a bare `except: pass`, are injected through `ConvEnv`
flags.  A raised error carries the filesystem at the moment of the
raise; the encode step is modelled as atomic (on failure the
destination is not created). -/

/-- Local filesystem state: which paths currently hold a file. -/
def FS : Type := List Char → Bool

/-- Point update of the filesystem. -/
def fsSet (fs : FS) (p : List Char) (b : Bool) : FS :=
  fun q => if q = p then b else fs q

/-- Environment faults for `ensure_jpeg`: `Image.open` failing,
`im.save` failing, and `os.remove` failing (the last is swallowed by
the source). -/
structure ConvEnv where
  openFails : Bool
  saveFails : Bool
  removeFails : Bool
deriving DecidableEq

/-- Exceptions `ensure_jpeg` can propagate. -/
inductive ConvErr where
  | openFailed
  | saveFailed
deriving DecidableEq

/-- The extension test of `ensure_jpeg`: the lowercased path splits
into an extension equal to `.jpg` or `.jpeg`. -/
def canonicalExt (p : List Char) : Bool :=
  decide ((splitext (lowerStr p)).2 = ".jpg".data) ||
  decide ((splitext (lowerStr p)).2 = ".jpeg".data)

/-- Derived output path of `ensure_jpeg`: the base of the lowercased
input path with `.jpg` appended (`base, ext = os.path.splitext(local_path.lower())`,
`out = base + ".jpg"`). -/
def jpegOutPath (p : List Char) : List Char :=
  (splitext (lowerStr p)).1 ++ ".jpg".data

/-- Models `ensure_jpeg(local_path)`: return the path unchanged when the
lowercased extension is already `.jpg`/`.jpeg`; otherwise decode,
re-encode to the derived `.jpg` path, then try to remove the source,
ignoring removal errors. -/
def ensure_jpeg (env : ConvEnv) (p : List Char) (fs : FS) :
    Except (ConvErr × FS) (List Char × FS) :=
  if canonicalExt p then .ok (p, fs)
  else if env.openFails then .error (.openFailed, fs)
  else if env.saveFails then .error (.saveFailed, fs)
  else
    let out := jpegOutPath p
    let fs1 := fsSet fs out true
    let fs2 := if env.removeFails then fs1 else fsSet fs1 p false
    .ok (out, fs2)

/-- Whether `ensure_jpeg` raised. -/
def ensureJpegRaised (env : ConvEnv) (p : List Char) (fs : FS) : Bool :=
  match ensure_jpeg env p fs with
  | .ok _ => false
  | .error _ => true

/-- Filesystem after `ensure_jpeg`, raised or not. -/
def ensureJpegResultFs (env : ConvEnv) (p : List Char) (fs : FS) : FS :=
  match ensure_jpeg env p fs with
  | .ok (_, f) => f
  | .error (_, f) => f

/-- Path returned by `ensure_jpeg` on normal return. -/
def ensureJpegResultPath (env : ConvEnv) (p : List Char) (fs : FS) :
    Option (List Char) :=
  match ensure_jpeg env p fs with
  | .ok (q, _) => some q
  | .error _ => none

theorem splitext_fst_cases (l : List Char) :
    (splitext l).1 = l ∨ ∃ n, (splitext l).1 = l.take n := by
  rw [splitext]
  split
  · split
    · exact Or.inr ⟨_, rfl⟩
    · exact Or.inl rfl
  · exact Or.inl rfl

theorem lowerStr_splitext_fst (l : List Char) :
    lowerStr (splitext (lowerStr l)).1 = (splitext (lowerStr l)).1 := by
  rcases splitext_fst_cases (lowerStr l) with h | ⟨n, h⟩
  · rw [h]
    exact lowerStr_idem l
  · rw [h, lowerStr, List.map_take, ← lowerStr]
    rw [lowerStr_idem l]

/-- In the conversion branch the derived output path differs from the
input path: if they coincided, the input path would already carry the
canonical extension. -/
theorem jpegOutPath_ne_self (p : List Char) (h : canonicalExt p = false) :
    jpegOutPath p ≠ p := by
  intro heq
  have hBE := splitext_append (lowerStr p)
  have hlow : lowerStr (jpegOutPath p) = lowerStr p := by rw [heq]
  rw [jpegOutPath, lowerStr, List.map_append, ← lowerStr, ← lowerStr,
    lowerStr_splitext_fst, show lowerStr ".jpg".data = ".jpg".data from by decide]
    at hlow
  have hext : (splitext (lowerStr p)).2 = ".jpg".data := by
    apply List.append_cancel_left
    rw [hBE, hlow]
  rw [canonicalExt, hext] at h
  simp at h

/-- C6: on a path whose (case-insensitive) extension is already
canonical, `ensure_jpeg` returns the path unchanged and performs no
filesystem change, whatever the environment does. -/
theorem ensure_jpeg_idempotent (env : ConvEnv) (p : List Char) (fs : FS)
    (h : canonicalExt p = true) :
    ensure_jpeg env p fs = .ok (p, fs) := by
  rw [ensure_jpeg, if_pos h]

/-- Concrete filesystem holding exactly the file `/tmp/a.png`. -/
def demoFs : FS := fun q => q == "/tmp/a.png".data

/-- Witness for C6 at a mixed-case canonical path, with every fault
flag raised. -/
theorem ensure_jpeg_idempotent_witness :
    canonicalExt ("/tmp/Photo.JPG".data) = true ∧
    ensure_jpeg ⟨true, true, true⟩ ("/tmp/Photo.JPG".data) demoFs =
      .ok ("/tmp/Photo.JPG".data, demoFs) :=
  ⟨by decide, ensure_jpeg_idempotent ⟨true, true, true⟩ ("/tmp/Photo.JPG".data) demoFs (by decide)⟩

/-- C5 counterexample: converting `/tmp/a.png` with a failing
`os.remove` returns successfully while both the source and the
destination file are present, refuting the claim that on success
exactly one file (never both) remains. -/
theorem ensure_jpeg_both_files_cex :
    ensureJpegRaised ⟨false, false, true⟩ ("/tmp/a.png".data) demoFs = false ∧
    ensureJpegResultFs ⟨false, false, true⟩ ("/tmp/a.png".data) demoFs
      ("/tmp/a.png".data) = true ∧
    ensureJpegResultFs ⟨false, false, true⟩ ("/tmp/a.png".data) demoFs
      ("/tmp/a.jpg".data) = true := by
  decide

/-- C5 amended: the source is deleted only after the destination write
succeeds — on a decode or encode failure the filesystem is untouched
(the source remains); on success the canonical file is present and the
source has been removed exactly when the removal did not fail (a failed
removal is suppressed, leaving both files). -/
theorem ensure_jpeg_atomicity (env : ConvEnv) (p : List Char) (fs : FS)
    (hsrc : fs p = true) (hcanon : canonicalExt p = false) :
    (ensureJpegRaised env p fs = true → ensureJpegResultFs env p fs = fs) ∧
    (ensureJpegRaised env p fs = false →
      ensureJpegResultFs env p fs (jpegOutPath p) = true ∧
      ensureJpegResultFs env p fs p = env.removeFails) := by
  have hne := jpegOutPath_ne_self p hcanon
  obtain ⟨o, s, r⟩ := env
  cases o <;> cases s <;> cases r <;>
    simp [ensureJpegRaised, ensureJpegResultFs, ensure_jpeg, hcanon, fsSet,
      hne, Ne.symm hne, hsrc]

/-- Witness for C5 (amended) on a clean conversion of `/tmp/a.png`. -/
theorem ensure_jpeg_atomicity_witness :
    demoFs ("/tmp/a.png".data) = true ∧
    canonicalExt ("/tmp/a.png".data) = false ∧
    ((ensureJpegRaised ⟨false, false, false⟩ ("/tmp/a.png".data) demoFs = true →
      ensureJpegResultFs ⟨false, false, false⟩ ("/tmp/a.png".data) demoFs = demoFs) ∧
    (ensureJpegRaised ⟨false, false, false⟩ ("/tmp/a.png".data) demoFs = false →
      ensureJpegResultFs ⟨false, false, false⟩ ("/tmp/a.png".data) demoFs
        (jpegOutPath ("/tmp/a.png".data)) = true ∧
      ensureJpegResultFs ⟨false, false, false⟩ ("/tmp/a.png".data) demoFs
        ("/tmp/a.png".data) = ConvEnv.removeFails ⟨false, false, false⟩)) :=
  ⟨by decide, by decide,
    ensure_jpeg_atomicity ⟨false, false, false⟩ ("/tmp/a.png".data) demoFs
      (by decide) (by decide)⟩

/-- C10: when the (case-insensitive) extension is not canonical and the
conversion succeeds, the returned path is the lowercased base of the
input path with `.jpg` appended; a path that already carries the
canonical extension is returned with its original casing intact. -/
theorem ensure_jpeg_name_derivation (env : ConvEnv) (p : List Char) (fs : FS) :
    (canonicalExt p = false → env.openFails = false → env.saveFails = false →
      ensureJpegResultPath env p fs =
        some (lowerStr (splitext p).1 ++ ".jpg".data)) ∧
    (canonicalExt p = true → ensureJpegResultPath env p fs = some p) := by
  constructor
  · intro h1 h2 h3
    have hfst : (splitext (lowerStr p)).1 = lowerStr (splitext p).1 :=
      congrArg Prod.fst (splitext_lower p)
    rw [ensureJpegResultPath, ensure_jpeg, if_neg (by simp [h1]), h2, h3]
    simp [jpegOutPath, hfst]
  · intro h
    rw [ensureJpegResultPath, ensure_jpeg, if_pos h]

/-- Witness for C10: a mixed-case non-canonical path is lowercased as a
whole, and a mixed-case canonical path is returned untouched. -/
theorem ensure_jpeg_name_derivation_witness :
    canonicalExt ("/Tmp/Ab.PNG".data) = false ∧
    ensureJpegResultPath ⟨false, false, false⟩ ("/Tmp/Ab.PNG".data) demoFs =
      some (lowerStr (splitext ("/Tmp/Ab.PNG".data)).1 ++ ".jpg".data) ∧
    canonicalExt ("/Tmp/Ab.JpeG".data) = true ∧
    ensureJpegResultPath ⟨false, false, false⟩ ("/Tmp/Ab.JpeG".data) demoFs =
      some ("/Tmp/Ab.JpeG".data) :=
  ⟨by decide,
    (ensure_jpeg_name_derivation ⟨false, false, false⟩ ("/Tmp/Ab.PNG".data) demoFs).1
      (by decide) rfl rfl,
    by decide,
    (ensure_jpeg_name_derivation ⟨false, false, false⟩ ("/Tmp/Ab.JpeG".data) demoFs).2
      (by decide)⟩

/-! ### GeoEncoder: decimal degrees to DMS rationals

Python floats are modelled as exact rationals.  `round(x, 2)` is
round-half-to-even on the scaled value, and
`Fraction(x).limit_denominator()` is the CPython continued-fraction
algorithm, whose fast path returns the fraction unchanged when its
denominator is already within the bound. -/

/-- Models Python builtin `round` to an integer: round half to even. -/
def pyRound (x : ℚ) : ℤ :=
  if x - ⌊x⌋ < 1 / 2 then ⌊x⌋
  else if 1 / 2 < x - ⌊x⌋ then ⌊x⌋ + 1
  else if Even ⌊x⌋ then ⌊x⌋ else ⌊x⌋ + 1

/-- Models Python `round(x, 2)`. -/
def round2 (x : ℚ) : ℚ := (pyRound (x * 100) : ℚ) / 100

/-- The continued-fraction loop of CPython
`Fraction.limit_denominator`.  The `d = 0` guard is unreachable from
`limit_denominator` (the loop breaks once a convergent denominator
exceeds the bound, which happens no later than the final convergent,
whose denominator exceeds the bound on the slow path); it is present
only to make termination structural. -/
def cfLoop (maxDen : ℕ) (n : ℤ) (d : ℕ) (p0 q0 p1 q1 : ℤ) : ℤ × ℤ × ℤ × ℤ :=
  if hd : d = 0 then (p0, q0, p1, q1)
  else
    let a : ℤ := Int.fdiv n d
    let q2 : ℤ := q0 + a * q1
    if (maxDen : ℤ) < q2 then (p0, q0, p1, q1)
    else cfLoop maxDen d ((n - a * d).toNat) p1 q1 (p0 + a * p1) q2
termination_by d
decreasing_by
  have hd0 : (0 : ℤ) < (d : ℤ) := by omega
  have hmod : n - Int.fdiv n d * d = Int.fmod n d := by
    rw [Int.fmod_def]
    ring
  have h1 : 0 ≤ Int.fmod n ↑d := Int.fmod_nonneg' n (by omega)
  have h2 : Int.fmod n ↑d < ↑d := Int.fmod_lt_of_pos n hd0
  simp only [hmod]
  omega

/-- Models CPython `Fraction.limit_denominator(maxDen)`.  With
`maxDen < 1` the source raises `ValueError`; that branch is never
reached from `_rat`, which always passes the default `10 ** 6`. -/
def limit_denominator (x : ℚ) (maxDen : ℕ) : ℚ :=
  if maxDen < 1 then x
  else if x.den ≤ maxDen then x
  else
    let r := cfLoop maxDen x.num x.den 0 1 1 0
    let k := Int.fdiv ((maxDen : ℤ) - r.2.1) r.2.2.2
    let bound1 : ℚ := ((r.1 + k * r.2.2.1 : ℤ) : ℚ) / ((r.2.1 + k * r.2.2.2 : ℤ) : ℚ)
    let bound2 : ℚ := ((r.2.2.1 : ℤ) : ℚ) / ((r.2.2.2 : ℤ) : ℚ)
    if |bound2 - x| ≤ |bound1 - x| then bound2 else bound1

/-- Models `_rat`: `Fraction(x).limit_denominator()` reported as a
numerator-denominator pair. -/
def _rat (x : ℚ) : ℤ × ℕ :=
  ((limit_denominator x 1000000).num, (limit_denominator x 1000000).den)

/-- Models `_deg_to_dms_rationals`: split `|deg_float|` into integer
degrees, integer minutes and residual seconds rounded to two decimals,
each encoded through `_rat`.  Python `int()` truncates toward zero,
which on the nonnegative values taken here is the floor. -/
def _deg_to_dms_rationals (v : ℚ) : (ℤ × ℕ) × (ℤ × ℕ) × (ℤ × ℕ) :=
  let deg : ℕ := ⌊|v|⌋.toNat
  let minutesFloat : ℚ := (|v| - (deg : ℚ)) * 60
  let minutes : ℕ := ⌊minutesFloat⌋.toNat
  let seconds : ℚ := (minutesFloat - (minutes : ℚ)) * 60
  (_rat (deg : ℚ), _rat (minutes : ℚ), _rat (round2 seconds))

/-- Value of one of the produced rational pairs. -/
def ratVal (r : ℤ × ℕ) : ℚ := (r.1 : ℚ) / (r.2 : ℚ)

/-- Recombination named by the spec: degrees plus minutes over 60 plus
seconds over 3600. -/
def dms_to_degrees (t : (ℤ × ℕ) × (ℤ × ℕ) × (ℤ × ℕ)) : ℚ :=
  ratVal t.1 + ratVal t.2.1 / 60 + ratVal t.2.2 / 3600

/-- Sign restored from the hemisphere reference, which the source
computes as `"N" if lat >= 0 else "S"` (resp. E/W). -/
def hemisphereSign (v : ℚ) : ℚ := if 0 ≤ v then 1 else -1

/-- Encode then recombine, restoring the sign from the hemisphere. -/
def encodeRecombined (v : ℚ) : ℚ :=
  hemisphereSign v * dms_to_degrees (_deg_to_dms_rationals v)

theorem pyRound_close (x : ℚ) : |((pyRound x : ℤ) : ℚ) - x| ≤ 1 / 2 := by
  have hf1 : ((⌊x⌋ : ℤ) : ℚ) ≤ x := Int.floor_le x
  have hf2 : x < ((⌊x⌋ : ℤ) : ℚ) + 1 := Int.lt_floor_add_one x
  rw [pyRound]
  split_ifs with ha hb hc <;> rw [abs_le] <;> push_cast <;> constructor <;> linarith

theorem round2_close (x : ℚ) : |round2 x - x| ≤ 1 / 200 := by
  have h := pyRound_close (x * 100)
  rw [round2]
  have hport : ((pyRound (x * 100) : ℤ) : ℚ) / 100 - x =
      (((pyRound (x * 100) : ℤ) : ℚ) - x * 100) / 100 := by
    ring
  rw [hport, abs_div, abs_of_pos (by norm_num : (0:ℚ) < 100)]
  rw [div_le_div_iff (by norm_num) (by norm_num)]
  linarith [h]

theorem round2_den_le (x : ℚ) : (round2 x).den ≤ 100 := by
  rw [round2]
  have h1 : ((pyRound (x * 100) : ℤ) : ℚ) / 100 = Rat.divInt (pyRound (x * 100)) 100 := by
    rw [Rat.divInt_eq_div]
    norm_num
  rw [h1]
  have h2 := Rat.den_dvd (pyRound (x * 100)) 100
  have h3 : ((Rat.divInt (pyRound (x * 100)) 100).den : ℤ) ∣ (100 : ℤ) := h2
  have h4 : (Rat.divInt (pyRound (x * 100)) 100).den ∣ 100 := by exact_mod_cast h3
  exact Nat.le_of_dvd (by norm_num) h4

theorem limit_denominator_eval (x : ℚ) (h : x.den ≤ 1000000) :
    limit_denominator x 1000000 = x := by
  rw [limit_denominator, if_neg (by norm_num), if_pos h]

theorem ratVal_rat (x : ℚ) (h : x.den ≤ 1000000) : ratVal (_rat x) = x := by
  rw [_rat, limit_denominator_eval x h, ratVal]
  exact Rat.num_div_den x

theorem dms_close (v : ℚ) :
    abs (dms_to_degrees (_deg_to_dms_rationals v) - |v|) ≤ 1 / 200 / 3600 := by
  simp only [_deg_to_dms_rationals, dms_to_degrees]
  rw [ratVal_rat ((⌊|v|⌋.toNat : ℕ) : ℚ) (by rw [Rat.den_natCast]; norm_num),
      ratVal_rat _ (by rw [Rat.den_natCast]; norm_num),
      ratVal_rat _ (le_trans (round2_den_le _) (by norm_num))]
  set d : ℚ := ((⌊|v|⌋.toNat : ℕ) : ℚ) with hd
  set m : ℚ := ((⌊(|v| - d) * 60⌋.toNat : ℕ) : ℚ) with hm
  set s : ℚ := ((|v| - d) * 60 - m) * 60 with hs
  have hkey : d + m / 60 + round2 s / 3600 - |v| = (round2 s - s) / 3600 := by
    rw [hs]
    ring
  rw [hkey, abs_div, abs_of_pos (by norm_num : (0:ℚ) < 3600),
      div_le_div_iff (by norm_num) (by norm_num)]
  have := round2_close s
  linarith

/-- C2: for v in [-180, 180] the recombined DMS rationals produced by
the encoder lie within 0.01 arc-second (one hundredth of 1/3600 degree)
of v; the rounding of seconds to two decimals contributes at most half
that, and the `limit_denominator` encoding is exact on these values. -/
theorem geo_encode_roundtrip (v : ℚ) (h1 : -180 ≤ v) (h2 : v ≤ 180) :
    |encodeRecombined v - v| ≤ 1 / 100 / 3600 := by
  have hc := dms_close v
  rw [encodeRecombined, hemisphereSign]
  by_cases hv : 0 ≤ v
  · rw [if_pos hv, one_mul]
    rw [abs_of_nonneg hv] at hc
    linarith [hc]
  · rw [if_neg hv]
    have hva : |v| = -v := abs_of_neg (lt_of_not_le hv)
    rw [hva] at hc
    have : -1 * dms_to_degrees (_deg_to_dms_rationals v) - v =
        -(dms_to_degrees (_deg_to_dms_rationals v) - -v) := by ring
    rw [this, abs_neg]
    linarith [hc]

/-- Witness for C2 at v = 24.7136 (the latitude of the spec scenario). -/
theorem geo_encode_roundtrip_witness :
    -180 ≤ (247136 / 10000 : ℚ) ∧ (247136 / 10000 : ℚ) ≤ 180 ∧
    |encodeRecombined (247136 / 10000) - 247136 / 10000| ≤ 1 / 100 / 3600 :=
  ⟨by norm_num, by norm_num,
    geo_encode_roundtrip (247136 / 10000) (by norm_num) (by norm_num)⟩

/-! ### GeotagWriter: write_gps_exif_jpeg_inplace

The builtin `float(str)` is modelled for ASCII input: surrounding
whitespace, an optional sign, the keywords inf/infinity/nan (any case),
and decimal literals with optional fraction, exponent, and underscore
digit separators.  Infinities and NaN are represented explicitly since
the DMS conversion raises on them (`int(abs(inf))` overflows). -/

/-- Numeric value of an ASCII digit. -/
def charVal (c : Char) : ℕ := c.toNat - 48

/-- Scanner state of a digit group: accumulated value, digit count, and
the unconsumed remainder.  Underscores are allowed only between two
digits, as in Python numeric literals. -/
def parseDigGroupGo : ℕ → ℕ → List Char → ℕ × ℕ × List Char
  | acc, cnt, [] => (acc, cnt, [])
  | acc, cnt, c :: cs =>
    if c.isDigit then parseDigGroupGo (10 * acc + charVal c) (cnt + 1) cs
    else if c = '_' then
      match cs with
      | d :: ds =>
        if d.isDigit then parseDigGroupGo (10 * acc + charVal d) (cnt + 1) ds
        else (acc, cnt, c :: cs)
      | [] => (acc, cnt, c :: cs)
    else (acc, cnt, c :: cs)

/-- Parse a nonempty digit group with underscore separators; `none`
when the input does not start with a digit. -/
def parseDigGroup (l : List Char) : Option (ℕ × ℕ × List Char) :=
  match l with
  | c :: cs => if c.isDigit then some (parseDigGroupGo (charVal c) 1 cs) else none
  | [] => none

/-- The ASCII whitespace Python strips around a float literal. -/
def isPySpace (c : Char) : Bool :=
  c = ' ' || c = '\t' || c = '\n' || c = '\x0b' || c = '\x0c' || c = '\r'

/-- Models `str.strip()` for ASCII whitespace. -/
def pyStripList (l : List Char) : List Char :=
  ((l.dropWhile isPySpace).reverse.dropWhile isPySpace).reverse

/-- Result of Python `float()`: a finite value, a signed infinity, or
NaN. -/
inductive PyFloat where
  | finite (q : ℚ)
  | infinite (pos : Bool)
  | nan
deriving DecidableEq

/-- Optional leading sign of a float literal. -/
def parseSign : List Char → ℤ × List Char
  | '+' :: r => (1, r)
  | '-' :: r => (-1, r)
  | l => (1, l)

/-- Parse the unsigned numeric part: optional integer digits, optional
dot with optional fraction digits (at least one digit overall), then an
optional exponent with mandatory digits, consuming the whole input. -/
def parseNumber (l : List Char) : Option ℚ :=
  let ipr :=
    match parseDigGroup l with
    | some x => x
    | none => ((0 : ℕ), (0 : ℕ), l)
  let fpr :=
    match ipr.2.2 with
    | '.' :: rest =>
      match parseDigGroup rest with
      | some x => x
      | none => ((0 : ℕ), (0 : ℕ), rest)
    | _ => ((0 : ℕ), (0 : ℕ), ipr.2.2)
  if ipr.2.1 + fpr.2.1 = 0 then none
  else
    let mant : ℚ := (ipr.1 : ℚ) + (fpr.1 : ℚ) / ((10 : ℚ) ^ fpr.2.1)
    match fpr.2.2 with
    | [] => some mant
    | c :: rest =>
      if c = 'e' ∨ c = 'E' then
        match parseDigGroup (parseSign rest).2 with
        | some (ev, _, []) => some (mant * (10 : ℚ) ^ ((parseSign rest).1 * (ev : ℤ)))
        | _ => none
      else none

/-- Models the Python builtin `float(s)` on ASCII input, as used by the
geotag writer; parse failure is `none` (a raised `ValueError` in the
source, caught locally). -/
def parseFloat (s : String) : Option PyFloat :=
  let l := pyStripList s.data
  let sign := (parseSign l).1
  let rest := (parseSign l).2
  let low := rest.map lowerChar
  if low = "inf".data ∨ low = "infinity".data then
    some (.infinite (decide (sign = 1)))
  else if low = "nan".data then some .nan
  else
    match parseNumber rest with
    | some q => some (.finite ((sign : ℚ) * q))
    | none => none

/-- The GPS IFD fields the source populates: version marker, the two
hemisphere reference bytes and the two DMS rational triples.  Other
EXIF content is outside the model. -/
structure GpsIfd where
  versionId : ℕ × ℕ × ℕ × ℕ
  latRef : List Char
  lat : (ℤ × ℕ) × (ℤ × ℕ) × (ℤ × ℕ)
  lonRef : List Char
  lon : (ℤ × ℕ) × (ℤ × ℕ) × (ℤ × ℕ)
deriving DecidableEq

/-- A local image file: pixel grid plus the modelled GPS metadata
block. -/
structure ImgFile where
  width : ℕ
  height : ℕ
  px : ℕ → ℕ → ℕ × ℕ × ℕ
  gps : Option GpsIfd

/-- Environment fault for the geotag writer: `piexif.dump` or the
re-save raising, which the source catches and reports as `False`.
(A failing `piexif.load` only falls back to an empty EXIF dict and is
invisible here because only the GPS block is modelled.) -/
structure ExifEnv where
  dumpOrSaveFails : Bool
deriving DecidableEq

/-- Exceptions the DMS conversion can raise on non-finite floats,
outside any `try` in the source. -/
inductive PyErr where
  | overflowError
  | valueError
deriving DecidableEq

/-- Python `x >= 0` on a float: false for NaN, sign for infinities. -/
def pyGe0 : PyFloat → Bool
  | .finite q => decide (0 ≤ q)
  | .infinite pos => pos
  | .nan => false

/-- `_deg_to_dms_rationals` lifted to Python floats: `int(abs(inf))`
raises `OverflowError` and `int(nan)` raises `ValueError`. -/
def dmsOfPyFloat : PyFloat → Except PyErr ((ℤ × ℕ) × (ℤ × ℕ) × (ℤ × ℕ))
  | .finite q => .ok (_deg_to_dms_rationals q)
  | .infinite _ => .error .overflowError
  | .nan => .error .valueError

/-- Module constant of the source. -/
def ENABLE_EXIF : Bool := true

/-- Models `write_gps_exif_jpeg_inplace(local_jpeg_path, lat_s, lon_s)`
on the file at that path: skip when EXIF support is off, return false
on unparsable coordinates without touching the image, otherwise build
the GPS IFD and re-save in place (pixels preserved; `convert("RGB")`
is the identity on the RGB pixel model); a dump/save failure is caught
and reported as false. -/
def write_gps_exif_jpeg_inplace (env : ExifEnv) (pexOk : Bool) (img : ImgFile)
    (lat_s lon_s : String) : Except PyErr (Bool × ImgFile) :=
  if !(ENABLE_EXIF && pexOk) then .ok (false, img)
  else
    match parseFloat lat_s, parseFloat lon_s with
    | some lat, some lon =>
      let latRef := if pyGe0 lat then "N".data else "S".data
      let lonRef := if pyGe0 lon then "E".data else "W".data
      match dmsOfPyFloat lat with
      | .error e => .error e
      | .ok latDms =>
        match dmsOfPyFloat lon with
        | .error e => .error e
        | .ok lonDms =>
          if env.dumpOrSaveFails then .ok (false, img)
          else .ok (true,
            { img with gps := some ⟨(2, 3, 0, 0), latRef, latDms, lonRef, lonDms⟩ })
    | _, _ => .ok (false, img)

/-- C4: when either coordinate string fails to parse as a float, the
geotag writer returns false and the image file (pixels and metadata)
is unchanged, whatever the environment does. -/
theorem writeGeotag_invalid_input (env : ExifEnv) (pexOk : Bool) (img : ImgFile)
    (lat_s lon_s : String)
    (h : parseFloat lat_s = none ∨ parseFloat lon_s = none) :
    write_gps_exif_jpeg_inplace env pexOk img lat_s lon_s = .ok (false, img) := by
  cases hpex : pexOk
  · simp [write_gps_exif_jpeg_inplace, ENABLE_EXIF]
  · rcases h with h | h
    · simp only [write_gps_exif_jpeg_inplace, ENABLE_EXIF, h]
      cases parseFloat lon_s <;> rfl
    · simp only [write_gps_exif_jpeg_inplace, ENABLE_EXIF, h]
      cases parseFloat lat_s <;> rfl

/-- Concrete 640 by 480 grey image with no metadata. -/
def demoImg : ImgFile := ⟨640, 480, fun _ _ => (128, 128, 128), none⟩

/-- Witness for C4 at the non-numeric inputs named by the spec. -/
theorem writeGeotag_invalid_input_witness :
    parseFloat "abc" = none ∧
    write_gps_exif_jpeg_inplace ⟨false⟩ true demoImg "abc" "" = .ok (false, demoImg) :=
  ⟨by decide,
    writeGeotag_invalid_input ⟨false⟩ true demoImg "abc" "" (Or.inl (by decide))⟩

/-! ### CaptionStamper: stamp_text_on_image

The image is a pixel grid.  Drawing a text line is modelled as
painting the bounding box the library reports for it: the built-in
bitmap font is modelled with the fixed metrics `textbbox((0,0), line) =
(0, 0, 6 * length, 11)`, so a draw at `(x, y)` affects only the
rectangle `[x, x + 6 * length) × [y, y + 11)`.  The final JPEG
re-encode is modelled as pixel-preserving.  Mirroring the source, the
per-line layout height is the bbox height times `scale`, while the
glyphs themselves are drawn at their natural size, four times in black
at one-pixel offsets and then once in white on top. -/

/-- Modelled bbox height of the built-in bitmap font. -/
def fontBboxH : ℕ := 11

/-- Modelled rendered width of a text line in the built-in font. -/
def textWidth (s : String) : ℕ := 6 * s.length

/-- An RGB image under edit. -/
structure Img where
  width : ℕ
  height : ℕ
  px : ℕ → ℕ → ℕ × ℕ × ℕ

/-- Models `draw.text((x, y), s, fill)`: paint the text bbox. -/
def drawText (img : Img) (x y : ℕ) (s : String) (fill : ℕ × ℕ × ℕ) : Img :=
  { img with
    px := fun i j =>
      if x ≤ i ∧ i < x + textWidth s ∧ y ≤ j ∧ j < y + fontBboxH then fill
      else img.px i j }

/-- One caption line as the source draws it: four black copies at
offsets (0,0), (1,0), (0,1), (1,1), then one white copy at the base
position. -/
def drawStampedLine (img : Img) (x y : ℕ) (s : String) : Img :=
  let i1 := drawText img (x + 0) (y + 0) s (0, 0, 0)
  let i2 := drawText i1 (x + 1) (y + 0) s (0, 0, 0)
  let i3 := drawText i2 (x + 0) (y + 1) s (0, 0, 0)
  let i4 := drawText i3 (x + 1) (y + 1) s (0, 0, 0)
  drawText i4 x y s (255, 255, 255)

/-- The loop over caption lines: draw at the running y, then advance by
this line's layout height plus scaled spacing. -/
def stampLoop (x : ℕ) (spacing scale : ℕ) : List String → ℕ → Img → Img
  | [], _, img => img
  | s :: rest, y, img =>
    stampLoop x spacing scale rest (y + fontBboxH * scale + spacing * scale)
      (drawStampedLine img x y s)

/-- Total layout height `y_accum` of the caption block. -/
def stampYAccum (lines : List String) (spacing scale : ℕ) : ℕ :=
  match lines with
  | [] => 0
  | _ :: rest => fontBboxH * scale + spacing * scale + stampYAccum rest spacing scale

/-- Starting y of the block: anchored `margin` above the bottom edge,
clamped to `margin` when the block is too tall. -/
def stampYStart (img : Img) (lines : List String) (margin spacing scale : ℕ) : ℕ :=
  max margin (img.height - margin - stampYAccum lines spacing scale)

/-- Models `stamp_text_on_image(local_path, lines, margin, line_spacing,
scale)` on the image at that path (re-save modelled as
pixel-preserving). -/
def stamp_text_on_image (img : Img) (lines : List String)
    (margin spacing scale : ℕ) : Img :=
  stampLoop margin spacing scale lines (stampYStart img lines margin spacing scale) img

/-- Widest modelled line of the caption block. -/
def maxTextWidth : List String → ℕ
  | [] => 0
  | s :: rest => max (textWidth s) (maxTextWidth rest)

/-- The bottom-left caption block: the x-range covered by the offset
draws starting at the left margin, and the y-range of the computed
layout block. -/
def inCaptionBlock (img : Img) (lines : List String)
    (margin spacing scale : ℕ) (i j : ℕ) : Prop :=
  margin ≤ i ∧ i < margin + maxTextWidth lines + 2 ∧
  stampYStart img lines margin spacing scale ≤ j ∧
  j < stampYStart img lines margin spacing scale + stampYAccum lines spacing scale

theorem drawText_px_outside (img : Img) (x y : ℕ) (s : String)
    (fill : ℕ × ℕ × ℕ) (i j : ℕ)
    (h : i < x ∨ x + textWidth s ≤ i ∨ j < y ∨ y + fontBboxH ≤ j) :
    (drawText img x y s fill).px i j = img.px i j := by
  rw [drawText]
  dsimp only
  rw [if_neg]
  rintro ⟨h1, h2, h3, h4⟩
  rcases h with h | h | h | h <;> omega

theorem drawText_dims (img : Img) (x y : ℕ) (s : String) (fill : ℕ × ℕ × ℕ) :
    (drawText img x y s fill).width = img.width ∧
    (drawText img x y s fill).height = img.height :=
  ⟨rfl, rfl⟩

theorem drawStampedLine_px_outside (img : Img) (x y : ℕ) (s : String) (i j : ℕ)
    (h : i < x ∨ x + textWidth s + 2 ≤ i ∨ j < y ∨ y + fontBboxH + 1 ≤ j) :
    (drawStampedLine img x y s).px i j = img.px i j := by
  rw [drawStampedLine]
  rw [drawText_px_outside, drawText_px_outside, drawText_px_outside,
      drawText_px_outside, drawText_px_outside] <;> omega

theorem stampLoop_px_outside (lines : List String) (x spacing scale y : ℕ)
    (img : Img) (i j : ℕ) (hs : 1 ≤ scale) (hsp : 1 ≤ spacing)
    (h : i < x ∨ x + maxTextWidth lines + 2 ≤ i ∨ j < y ∨
      y + stampYAccum lines spacing scale ≤ j) :
    (stampLoop x spacing scale lines y img).px i j = img.px i j := by
  induction lines generalizing y img with
  | nil => rfl
  | cons s rest ih =>
    rw [stampLoop, ih]
    · apply drawStampedLine_px_outside
      rcases h with h | h | h | h
      · exact Or.inl h
      · refine Or.inr (Or.inl ?_)
        have := le_max_left (textWidth s) (maxTextWidth rest)
        rw [maxTextWidth] at h
        omega
      · exact Or.inr (Or.inr (Or.inl h))
      · refine Or.inr (Or.inr (Or.inr ?_))
        rw [stampYAccum, fontBboxH] at h
        rw [fontBboxH]
        nlinarith
    · rcases h with h | h | h | h
      · exact Or.inl h
      · refine Or.inr (Or.inl ?_)
        have := le_max_right (textWidth s) (maxTextWidth rest)
        rw [maxTextWidth] at h
        omega
      · exact Or.inr (Or.inr (Or.inl (by omega)))
      · refine Or.inr (Or.inr (Or.inr ?_))
        rw [stampYAccum] at h
        omega

theorem stampLoop_dims (lines : List String) (x spacing scale y : ℕ) (img : Img) :
    (stampLoop x spacing scale lines y img).width = img.width ∧
    (stampLoop x spacing scale lines y img).height = img.height := by
  induction lines generalizing y img with
  | nil => exact ⟨rfl, rfl⟩
  | cons s rest ih => rw [stampLoop]; exact ih _ _

/-- C8: a stamping run keeps the image dimensions and changes pixels
only inside the bottom-left caption block. -/
theorem stamp_frame_effect (img : Img) (lines : List String)
    (margin spacing scale : ℕ) (hs : 1 ≤ scale) (hsp : 1 ≤ spacing) :
    (stamp_text_on_image img lines margin spacing scale).width = img.width ∧
    (stamp_text_on_image img lines margin spacing scale).height = img.height ∧
    ∀ i j : ℕ, ¬ inCaptionBlock img lines margin spacing scale i j →
      (stamp_text_on_image img lines margin spacing scale).px i j = img.px i j := by
  refine ⟨(stampLoop_dims _ _ _ _ _ _).1, (stampLoop_dims _ _ _ _ _ _).2, ?_⟩
  intro i j hout
  rw [stamp_text_on_image]
  apply stampLoop_px_outside _ _ _ _ _ _ _ _ hs hsp
  rw [inCaptionBlock] at hout
  push_neg at hout
  by_cases h1 : margin ≤ i
  · by_cases h2 : i < margin + maxTextWidth lines + 2
    · by_cases h3 : stampYStart img lines margin spacing scale ≤ j
      · exact Or.inr (Or.inr (Or.inr (hout h1 h2 h3)))
      · exact Or.inr (Or.inr (Or.inl (by omega)))
    · exact Or.inr (Or.inl (by omega))
  · exact Or.inl (by omega)

/-- Witness for C8: the spec scenario of four caption lines on a
640 by 480 canonical image at scale factor 5. -/
theorem stamp_frame_effect_witness :
    1 ≤ 5 ∧ 1 ≤ 10 ∧
    ((stamp_text_on_image ⟨640, 480, fun _ _ => (128, 128, 128)⟩
        ["Task: T1  |  Station: S9", "Lat: 24.7136  |  Lon: 46.6753",
         "Time: 2025-01-01 12:00:00", "File: photo.jpg"] 16 10 5).width = 640 ∧
      (stamp_text_on_image ⟨640, 480, fun _ _ => (128, 128, 128)⟩
        ["Task: T1  |  Station: S9", "Lat: 24.7136  |  Lon: 46.6753",
         "Time: 2025-01-01 12:00:00", "File: photo.jpg"] 16 10 5).height = 480 ∧
      ∀ i j : ℕ,
        ¬ inCaptionBlock ⟨640, 480, fun _ _ => (128, 128, 128)⟩
          ["Task: T1  |  Station: S9", "Lat: 24.7136  |  Lon: 46.6753",
           "Time: 2025-01-01 12:00:00", "File: photo.jpg"] 16 10 5 i j →
        (stamp_text_on_image ⟨640, 480, fun _ _ => (128, 128, 128)⟩
          ["Task: T1  |  Station: S9", "Lat: 24.7136  |  Lon: 46.6753",
           "Time: 2025-01-01 12:00:00", "File: photo.jpg"] 16 10 5).px i j =
          (fun _ _ => ((128 : ℕ), (128 : ℕ), (128 : ℕ))) i j) :=
  ⟨by norm_num, by norm_num,
    stamp_frame_effect ⟨640, 480, fun _ _ => (128, 128, 128)⟩
      ["Task: T1  |  Station: S9", "Lat: 24.7136  |  Lon: 46.6753",
       "Time: 2025-01-01 12:00:00", "File: photo.jpg"] 16 10 5
      (by norm_num) (by norm_num)⟩

/-- C7 counterexample: stamping one line on a 100 by 100 grey image
leaves a black pixel on the draw fringe — the four offset copies of the
text are drawn with fill (0,0,0) beneath the white copy, so a black
contrast layer is painted, refuting white-only drawing. -/
theorem stamp_black_underlayer_cex :
    (stamp_text_on_image ⟨100, 100, fun _ _ => (128, 128, 128)⟩
      ["A"] 16 10 4).px 16 27 = (0, 0, 0) ∧
    (128, 128, 128) ≠ ((0, 0, 0) : ℕ × ℕ × ℕ) ∧
    ((0, 0, 0) : ℕ × ℕ × ℕ) ≠ (255, 255, 255) := by
  refine ⟨?_, by decide, by decide⟩
  decide

/-- C7 amended: each caption line is drawn four times in black at
one-pixel offsets (a contrast underlayer) and then once in solid
opaque white on top, so a stamped pixel is either unchanged, black, or
white. -/
theorem stamp_palette (img : Img) (lines : List String)
    (margin spacing scale : ℕ) (i j : ℕ) :
    (stamp_text_on_image img lines margin spacing scale).px i j = img.px i j ∨
    (stamp_text_on_image img lines margin spacing scale).px i j = (0, 0, 0) ∨
    (stamp_text_on_image img lines margin spacing scale).px i j = (255, 255, 255) := by
  rw [stamp_text_on_image]
  generalize stampYStart img lines margin spacing scale = y
  induction lines generalizing y img with
  | nil => exact Or.inl rfl
  | cons s rest ih =>
    rw [stampLoop]
    rcases ih (drawStampedLine img margin y s)
        (y + fontBboxH * scale + spacing * scale) with h | h | h
    · rw [h]
      rw [drawStampedLine, drawText, drawText, drawText, drawText, drawText]
      dsimp only
      split
      · exact Or.inr (Or.inr rfl)
      · split
        · exact Or.inr (Or.inl rfl)
        · split
          · exact Or.inr (Or.inl rfl)
          · split
            · exact Or.inr (Or.inl rfl)
            · split
              · exact Or.inr (Or.inl rfl)
              · exact Or.inl rfl
    · exact Or.inr (Or.inl h)
    · exact Or.inr (Or.inr h)

/-! ### LedgerWriter: the Excel ledger in object storage

The ledger document is modelled as its single `TaskLog` worksheet: a
list of rows of cells, where a cell carries a value and the optional
hyperlink and style that openpyxl attaches.  `ensure_excel_exists_locally`
yields the stored document when the download succeeds and a fresh
header-only workbook otherwise. -/

/-- One spreadsheet cell: value, optional hyperlink, optional style. -/
structure Cell where
  value : String
  hyperlink : Option String
  style : Option String
deriving DecidableEq

/-- A plain value cell as `ws.append` creates it. -/
def mkCell (v : String) : Cell := ⟨v, none, none⟩

/-- The single `TaskLog` worksheet of the ledger document. -/
structure Worksheet where
  title : String
  rows : List (List Cell)
deriving DecidableEq

/-- The fixed header row (Arabic column titles as in the source). -/
def headerRow : List Cell :=
  [mkCell "رقم المهمة", mkCell "رقم المحطة", mkCell "ملاحظات", mkCell "اسم الصورة",
   mkCell "Latitude", mkCell "Longitude", mkCell "Timestamp", mkCell "Image URL"]

/-- Models `ensure_excel_exists_locally`: the stored ledger when the
download from storage succeeds, otherwise a fresh workbook whose
`TaskLog` sheet holds only the header row. -/
def ensure_excel_exists_locally (stored : Option Worksheet) : Worksheet :=
  match stored with
  | some ws => ws
  | none => ⟨"TaskLog", [headerRow]⟩

/-- Update the n-th entry of a list in place. -/
def modifyNth {α : Type} (f : α → α) : ℕ → List α → List α
  | _, [] => []
  | 0, a :: rest => f a :: rest
  | n + 1, a :: rest => a :: modifyNth f n rest

/-- Models `append_record_to_excel_and_upload` on the ledger document:
fetch or create the workbook, append the eight field values as the last
row, then set the hyperlink and `Hyperlink` style on the cell in row
`ws.max_row`, column 8.  (The re-save and re-upload transport the
resulting document unchanged.) -/
def append_record_to_excel_and_upload (stored : Option Worksheet)
    (task_id station_id note img_name lat lon ts img_url : String) : Worksheet :=
  let ws := ensure_excel_exists_locally stored
  let ws2 : Worksheet :=
    { ws with rows := ws.rows ++
        [[mkCell task_id, mkCell station_id, mkCell note, mkCell img_name,
          mkCell lat, mkCell lon, mkCell ts, mkCell img_url]] }
  let setLink := fun c => { c with hyperlink := some img_url, style := some "Hyperlink" }
  { ws2 with rows := modifyNth (modifyNth setLink 7) (ws2.rows.length - 1) ws2.rows }

/-- The data row the append produces, with the hyperlink installed on
the eighth cell. -/
def ledgerDataRow (task_id station_id note img_name lat lon ts img_url : String) :
    List Cell :=
  [mkCell task_id, mkCell station_id, mkCell note, mkCell img_name,
   mkCell lat, mkCell lon, mkCell ts,
   ⟨img_url, some img_url, some "Hyperlink"⟩]

theorem modifyNth_append_last {α : Type} (f : α → α) (l : List α) (a : α) :
    modifyNth f l.length (l ++ [a]) = l ++ [f a] := by
  induction l with
  | nil => rfl
  | cons x xs ih => simp [modifyNth, ih]

/-- C3: appending to an absent ledger yields exactly the header row
followed by the one data row; appending to an existing ledger with N
rows yields those N rows followed by the new data row (so N+1 rows with
the new row last), whose eighth cell carries a hyperlink to the image
URL. -/
theorem appendRow_shape (task_id station_id note img_name lat lon ts img_url : String) :
    (append_record_to_excel_and_upload none
        task_id station_id note img_name lat lon ts img_url).rows =
      [headerRow, ledgerDataRow task_id station_id note img_name lat lon ts img_url] ∧
    (∀ ws : Worksheet,
      (append_record_to_excel_and_upload (some ws)
          task_id station_id note img_name lat lon ts img_url).rows =
        ws.rows ++ [ledgerDataRow task_id station_id note img_name lat lon ts img_url]) ∧
    (ledgerDataRow task_id station_id note img_name lat lon ts img_url).get? 7 =
      some ⟨img_url, some img_url, some "Hyperlink"⟩ := by
  refine ⟨rfl, ?_, rfl⟩
  intro ws
  simp only [append_record_to_excel_and_upload, ensure_excel_exists_locally,
    List.length_append, List.length_singleton, Nat.add_sub_cancel]
  rw [modifyNth_append_last]
  rfl

/-! ### The upload request: control flow and temporary paths

`upload()` wraps the whole pipeline in one `try`; any exception raised
by a stage reaches the outer handler, which answers `ok = False` with
status 500.  Geotag and caption failures are caught inside their own
stages and only lower result flags, so they do not appear here; the
ledger append (`append_record_to_excel_and_upload`) contains no
internal exception handling and no fallback writer of any kind, so a
ledger failure surfaces as a raised exception. -/

/-- Environment faults for one upload request: an exception raised by
the image conversion, by the object-storage upload, or by the ledger
append. -/
structure UploadEnv where
  convertRaises : Bool
  uploadRaises : Bool
  ledgerRaises : Bool
deriving DecidableEq

/-- The request-level outcome: the `ok` flag of the JSON body and the
HTTP status. -/
structure UploadResponse where
  ok : Bool
  status : ℕ
deriving DecidableEq

/-- Models `(request.form.get("task_id") or "").strip()`. -/
def pyStrip (s : String) : String := String.mk (pyStripList s.data)

/-- Models the request-level control flow of `POST /upload`: the two
client-input checks answer 400; afterwards any stage exception reaches
the outer `except` and answers `ok = False` with 500; only a fully
clean run answers `ok = True` with 200. -/
def upload (hasImagePart : Bool) (task_id filename : String)
    (env : UploadEnv) : UploadResponse :=
  if !hasImagePart then ⟨false, 400⟩
  else if pyStrip task_id = "" then ⟨false, 400⟩
  else if filename = "" then ⟨false, 400⟩
  else if env.convertRaises then ⟨false, 500⟩
  else if env.uploadRaises then ⟨false, 500⟩
  else if env.ledgerRaises then ⟨false, 500⟩
  else ⟨true, 200⟩

/-- C1 counterexample: a valid upload whose ledger append raises is
answered `ok = False` with status 500 — the caller does see a
request-level failure caused by the ledger stage, and no fallback
exists, refuting the claimed graceful degradation. -/
theorem ledger_failure_fails_request_cex :
    upload true "T1" "photo.png" ⟨false, false, true⟩ =
      ({ ok := false, status := 500 } : UploadResponse) := by
  decide

/-- C1 amended: the source has no fallback path for a failed ledger
append; when `append_record_to_excel_and_upload` raises on an otherwise
valid request, the exception propagates to the outer handler and the
request fails with `ok = False` and status 500. -/
theorem ledger_failure_propagates (hasImagePart : Bool)
    (task_id filename : String) (env : UploadEnv)
    (himg : hasImagePart = true) (htask : ¬ pyStrip task_id = "")
    (hfname : ¬ filename = "") (hconv : env.convertRaises = false)
    (hupl : env.uploadRaises = false) (hledger : env.ledgerRaises = true) :
    upload hasImagePart task_id filename env =
      ({ ok := false, status := 500 } : UploadResponse) := by
  obtain ⟨c, u, l⟩ := env
  simp only at hconv hupl hledger
  subst himg hconv hupl hledger
  simp [upload, htask, hfname]

/-- Witness for C1 (amended) at a concrete valid request. -/
theorem ledger_failure_propagates_witness :
    ¬ pyStrip "T1" = "" ∧ ¬ "photo.png" = "" ∧
    upload true "T1" "photo.png" ⟨false, false, true⟩ =
      ({ ok := false, status := 500 } : UploadResponse) :=
  ⟨by decide, by decide,
    ledger_failure_propagates true "T1" "photo.png" ⟨false, false, true⟩
      rfl (by decide) (by decide) rfl rfl rfl⟩

/-- Temporary image path of a request:
`f"/tmp/{task_id}_{timestamp}_{filename}"`. -/
def tmpImagePath (task_id ts filename : List Char) : List Char :=
  "/tmp/".data ++ (task_id ++ '_' :: (ts ++ '_' :: filename))

/-- Temporary ledger path: the fixed `/tmp/TaskLog.xlsx` of
`append_record_to_excel_and_upload`, identical for every request. -/
def tmpExcelPath : List Char := "/tmp/TaskLog.xlsx".data

/-- The temporary local paths one request writes: its image temp file
and the ledger temp file. -/
def requestTmpPaths (task_id ts filename : List Char) : List (List Char) :=
  [tmpImagePath task_id ts filename, tmpExcelPath]

/-- C9 counterexample: two requests with entirely distinct
(task id, timestamp, filename) triples both write the fixed ledger
temp path `/tmp/TaskLog.xlsx`, refuting that distinct triples never
share a temporary path. -/
theorem tmp_path_collision_cex :
    (("a".data, "20250101120000".data, "b.jpg".data) ≠
      ("c".data, "20250101120001".data, "d.jpg".data)) ∧
    tmpExcelPath ∈ requestTmpPaths "a".data "20250101120000".data "b.jpg".data ∧
    tmpExcelPath ∈ requestTmpPaths "c".data "20250101120001".data "d.jpg".data := by
  refine ⟨by decide, ?_, ?_⟩ <;> · rw [requestTmpPaths]; exact List.mem_cons_of_mem _ (List.mem_singleton.2 rfl)

theorem underscore_split {a x : List Char} : ∀ {b y : List Char},
    '_' ∉ a → '_' ∉ b → a ++ '_' :: x = b ++ '_' :: y → a = b ∧ x = y := by
  induction a generalizing x with
  | nil =>
    intro b y _ hb h
    cases b with
    | nil => simpa using h
    | cons d ds =>
      simp only [List.nil_append, List.cons_append, List.cons.injEq] at h
      exact absurd (by rw [← h.1]; exact List.mem_cons_self _ _) hb
  | cons c cs ih =>
    intro b y ha hb h
    cases b with
    | nil =>
      simp only [List.cons_append, List.nil_append, List.cons.injEq] at h
      exact absurd (by rw [h.1]; exact List.mem_cons_self _ _) ha
    | cons d ds =>
      simp only [List.cons_append, List.cons.injEq] at h
      have ha2 : '_' ∉ cs := fun hm => ha (List.mem_cons_of_mem _ hm)
      have hb2 : '_' ∉ ds := fun hm => hb (List.mem_cons_of_mem _ hm)
      obtain ⟨e1, e2⟩ := ih ha2 hb2 h.2
      exact ⟨by rw [h.1, e1], e2⟩

/-- C9 amended: the image temp path separates its three components
with underscores around a fixed-width (14-character) timestamp, so for
task ids containing no underscore, distinct (task id, timestamp,
filename) triples give distinct image temp paths; the ledger temp path
however is one fixed file shared by all requests (and task ids with
underscores can make distinct triples collide). -/
theorem tmpImagePath_injective (t1 s1 f1 t2 s2 f2 : List Char)
    (h1 : '_' ∉ t1) (h2 : '_' ∉ t2)
    (hs1 : s1.length = 14) (hs2 : s2.length = 14)
    (heq : tmpImagePath t1 s1 f1 = tmpImagePath t2 s2 f2) :
    t1 = t2 ∧ s1 = s2 ∧ f1 = f2 := by
  rw [tmpImagePath, tmpImagePath] at heq
  have heq2 := List.append_cancel_left heq
  obtain ⟨e1, e2⟩ := underscore_split h1 h2 heq2
  obtain ⟨e3, e4⟩ := List.append_inj e2 (hs1.trans hs2.symm)
  refine ⟨e1, e3, ?_⟩
  injection e4

/-- Witness for C9 (amended) at a concrete triple. -/
theorem tmpImagePath_injective_witness :
    ('_' ∉ "a".data) ∧ ("20250101120000".data : List Char).length = 14 ∧
    ("a".data = "a".data ∧ "20250101120000".data = "20250101120000".data ∧
      "b.jpg".data = "b.jpg".data) :=
  ⟨by decide, by decide,
    tmpImagePath_injective "a".data "20250101120000".data "b.jpg".data
      "a".data "20250101120000".data "b.jpg".data
      (by decide) (by decide) (by decide) (by decide) rfl⟩

end FieldUploads
